import Mathlib

/-!
Verification development for the `linux-gpo` endpoint policy agent.

The Go sources are shallowly embedded: pure Go functions become Lean
functions on `String` / `List`; Go maps become association lists with
first-match lookup and zero-value defaults; fallible Go functions return
`Except String`; ambient process state (the clock read by `time.Now()`,
the outcomes of external `git` invocations, the filesystem) is passed
explicitly as values.  Filesystem-effecting code (`RunOnce`) is embedded
as a pure function producing a trace of effects.

Scope notes, recorded once here:
* Go's `regexp` package is modelled by a small engine (`goCompile`,
  `reSearch`) covering the fragment of RE2 syntax actually exercised by
  the claims under study: literal characters, `.`, `*`, a leading `^`
  and a trailing `$`.  Patterns outside the fragment fail to compile in
  the model.  `MatchString` performs an UNANCHORED search, exactly as in
  Go; `regexp.MustCompile` panics on a non-compiling pattern, modelled
  by `Option` (`none` = panic).
* `crypto/sha256` content digests returned alongside rendered bytes are
  not modelled; the claims are about the artifact bytes.
* Validation regexes of the policy packages (`^[a-zA-Z0-9._-]+$` etc.)
  are constant valid patterns; they are embedded directly as decidable
  character-class predicates.
-/

set_option maxRecDepth 16384

attribute [local semireducible] List.merge List.mergeSort String.ltb

namespace LGpo

/-! ## Generic string helpers mirroring Go's `strings` package -/

/-- Go `strings.Contains` on character lists: `sub` occurs inside `s`. -/
def listContainsSub (sub : List Char) : List Char → Bool
  | [] => sub.isPrefixOf []
  | c :: cs => sub.isPrefixOf (c :: cs) || listContainsSub sub cs

/-- Go `strings.Contains s sub`. -/
def goContains (s sub : String) : Bool :=
  listContainsSub sub.data s.data

/-- Go `strings.ReplaceAll s old new` for single-character `old`/`new`. -/
def replaceChar (s : String) (old new : Char) : String :=
  String.mk (s.data.map (fun c => if c = old then new else c))

/-- Go `strings.HasPrefix s pre`. -/
def goHasPfx (s pre : String) : Bool :=
  pre.data.isPrefixOf s.data

/-- Go `strings.ToLower` (ASCII; the signal strings compared against
are ASCII). -/
def goToLower (s : String) : String :=
  String.mk (s.data.map Char.toLower)

/-- Go `strings.TrimSpace` (whitespace defined by `Char.isWhitespace`,
matching Go's `unicode.IsSpace` on the ASCII data handled here). -/
def goTrim (s : String) : String :=
  String.mk
    (((s.data.dropWhile Char.isWhitespace).reverse.dropWhile
      Char.isWhitespace).reverse)

/-- Byte-lexicographic sort used to model Go's `sort.Strings`
(identical to Go on the ASCII data handled by the agent). -/
def sortStr (l : List String) : List String :=
  l.mergeSort (fun a b => decide (a ≤ b))

/-! ## Model of Go's `regexp` for the fragment used by selectors -/

/-- One atom of the regular-expression fragment. -/
inductive RTok where
  | lit (c : Char)
  | any
  deriving DecidableEq, Repr

/-- A compiled pattern: optional left anchor, atoms each optionally
starred, optional right anchor. -/
structure CompiledRE where
  startAnchor : Bool
  toks : List (RTok × Bool)
  endAnchor : Bool
  deriving DecidableEq, Repr

/-- Metacharacters outside the modelled fragment: compilation fails. -/
def rmeta (c : Char) : Bool :=
  c = '(' || c = ')' || c = '[' || c = ']' || c = '|' || c = '+' ||
  c = '?' || c = '\\' || c = Char.ofNat 123 || c = Char.ofNat 125

/-- Parse the body of a pattern (anchors already stripped). -/
def parseToks : List Char → Option (List (RTok × Bool))
  | [] => some []
  | [c] =>
    if rmeta c || c = '^' || c = '$' || c = '*' then none
    else some [(if c = '.' then RTok.any else RTok.lit c, false)]
  | c :: d :: rest =>
    if rmeta c || c = '^' || c = '$' || c = '*' then none
    else
      let tok := if c = '.' then RTok.any else RTok.lit c
      if d = '*' then (parseToks rest).map (fun ts => (tok, true) :: ts)
      else (parseToks (d :: rest)).map (fun ts => (tok, false) :: ts)
termination_by l => l.length

/-- Model of `regexp.Compile` on the fragment. -/
def goCompile (pat : String) : Option CompiledRE :=
  let cs := pat.data
  let sa := cs.head? = some '^'
  let cs := if sa then cs.tail else cs
  let ea := cs ≠ [] ∧ cs.getLast? = some '$'
  let cs := if ea then cs.dropLast else cs
  (parseToks cs).map (fun ts => ⟨sa, ts, ea⟩)

def atomOk : RTok → Char → Bool
  | .any, _ => true
  | .lit c, d => c = d

/-- Match the token list against the input here: if `ea` is set the
match must consume the whole input, otherwise some prefix suffices. -/
def matchCore : List (RTok × Bool) → List Char → Bool → Bool
  | [], s, ea => if ea then s.isEmpty else true
  | (_, false) :: _, [], _ => false
  | (t, false) :: ts, c :: cs, ea => atomOk t c && matchCore ts cs ea
  | (t, true) :: ts, s, ea =>
    matchCore ts s ea ||
      (match s with
       | [] => false
       | c :: cs => atomOk t c && matchCore ((t, true) :: ts) cs ea)
termination_by ts s _ => (s.length, ts.length)

unseal parseToks matchCore

/-- Try a match starting at each position of the input. -/
def searchFrom (ts : List (RTok × Bool)) (ea : Bool) : List Char → Bool
  | [] => matchCore ts [] ea
  | c :: cs => matchCore ts (c :: cs) ea || searchFrom ts ea cs

/-- Go `re.MatchString s`: unanchored search (anchors only where the
pattern itself carries `^` / `$`). -/
def reSearch (re : CompiledRE) (s : String) : Bool :=
  if re.startAnchor then matchCore re.toks s.data re.endAnchor
  else searchFrom re.toks re.endAnchor s.data

/-- Go `regexp.MustCompile(pat).MatchString s`; `none` models the
panic raised by `MustCompile` on a non-compiling pattern. -/
def goMatchString (pat s : String) : Option Bool :=
  (goCompile pat).map (fun re => reSearch re s)

/-- Modelled from the spec: the spec requires `hostnameRegex` to be
applied as an ANCHORED regular expression, i.e. the whole hostname must
match the pattern.  This definition follows the spec's words and is
compared against the source's `Sel.Match` (which searches unanchored). -/
def specAnchoredMatch (pat s : String) : Option Bool :=
  (goCompile pat).map (fun re => matchCore re.toks s.data true)

/-! ## Selector evaluator (`pkg/selector`, `Sel.Match`) -/

/-- A YAML scalar inside a tag-selector list: the source only ever
asks whether the element is a string. -/
inductive YItem where
  | str (s : String)
  | nonStr
  deriving DecidableEq, Repr

/-- A YAML value attached to a tag-selector key: string, list, or any
other shape. -/
inductive YVal where
  | str (s : String)
  | list (items : List YItem)
  | other
  deriving DecidableEq, Repr

structure Sel where
  facts : List (String × String)
  tags : List (String × YVal)
  hostnameRegex : String
  deriving DecidableEq, Repr

/-- The evaluation context: discovered facts and on-disk tags. -/
structure SelCtx where
  facts : List (String × String)
  tags : List (String × String)
  deriving DecidableEq, Repr

/-- Go map read with zero-value default: `m[k]` is `""` if absent. -/
def mapGet (m : List (String × String)) (k : String) : String :=
  match m.find? (fun kv => kv.1 == k) with
  | some kv => kv.2
  | none => ""

/-- One tag clause of `Sel.Match`: scalar equality, list membership
(non-string list elements are skipped), any other shape rejects. -/
def tagEntryOk (ctx : SelCtx) (k : String) : YVal → Bool
  | .str v => mapGet ctx.tags k == v
  | .list items =>
    items.any (fun it =>
      match it with
      | .str s => mapGet ctx.tags k == s
      | .nonStr => false)
  | .other => false

/-- Embedding of `Sel.Match` (src/cmd/lgpod/main.go).  Result `none`
models the panic of `regexp.MustCompile` on a bad pattern. -/
def selMatch (s : Sel) (ctx : SelCtx) : Option Bool :=
  let rest : Bool :=
    s.facts.all (fun kv => mapGet ctx.facts kv.1 == kv.2) &&
    s.tags.all (fun kv => tagEntryOk ctx kv.1 kv.2)
  if s.hostnameRegex ≠ "" then
    match goMatchString s.hostnameRegex (mapGet ctx.facts "hostname") with
    | none => none
    | some false => some false
    | some true => some rest
  else some rest

/-! ## Polkit policy package (`pkg/polkit`) -/

/-- Lowercase hex rendering of `n`, left-padded to 4 digits
(Go `fmt.Sprintf("\\u%04x", r)`). -/
def hex4 (n : Nat) : String :=
  let s := (Nat.toDigits 16 n).asString
  String.mk (List.replicate (4 - s.length) '0') ++ s

/-- Escaping of one character inside an emitted JavaScript string
literal (`jsString`'s per-rune switch). -/
def jsEscapeChar (c : Char) : String :=
  if c = '\\' then "\\\\"
  else if c = '"' then "\\\""
  else if c = '\n' then "\\n"
  else if c = '\r' then "\\r"
  else if c = '\t' then "\\t"
  else if c.toNat < 32 || c.toNat > 126 then "\\u" ++ hex4 c.toNat
  else String.singleton c

/-- Go `jsString`: a double-quoted JavaScript string literal. -/
def jsString (s : String) : String :=
  "\"" ++ String.join (s.data.map jsEscapeChar) ++ "\""

/-- Go `jsComment`: printable ASCII only, with `*` and `/` dropped. -/
def jsComment (s : String) : String :=
  String.mk (s.data.filter (fun r =>
    32 ≤ r.toNat && r.toNat ≤ 126 && r ≠ '*' && r ≠ '/'))

/-- Go `Result.JS` (pkg/polkit/types.go).  `Result` is a Go string
type, so the function is total on strings and defaults to `NO`. -/
def resultJS (r : String) : String :=
  if r = "YES" then "polkit.Result.YES"
  else if r = "NO" then "polkit.Result.NO"
  else if r = "AUTH_ADMIN" then "polkit.Result.AUTH_ADMIN"
  else if r = "AUTH_ADMIN_KEEP" then "polkit.Result.AUTH_ADMIN_KEEP"
  else "polkit.Result.NO"

/-- One `matches[]` entry.  Go field `ActionPrefix` is embedded as
`actionPfx` (file-local naming). -/
structure PkMatch where
  actionId : String
  actionPfx : String
  deriving DecidableEq, Repr

structure PkSubject where
  active : Option Bool
  group : String
  user : String
  deriving DecidableEq, Repr

/-- One polkit rule.  Go field `UnitPrefix` is embedded as `unitPfx`
and Go field `Matches` as `ruleMatches` (file-local naming). -/
structure PkRule where
  name : String
  ruleMatches : List PkMatch
  subject : PkSubject
  result : String
  defaultResult : Option String
  unitPfx : String
  deriving DecidableEq, Repr

structure PkPolicy where
  kind : String
  name : String
  selector : Sel
  rules : List PkRule
  deriving DecidableEq, Repr

/-- Character class of `^[a-zA-Z0-9._-]+$` (`reName`). -/
def isNameChar (c : Char) : Bool :=
  c.isAlpha || c.isDigit || c = '.' || c = '_' || c = '-'

def reNameOk (s : String) : Bool :=
  s ≠ "" && s.data.all isNameChar

/-- Character class of `^[a-z0-9._-]+$` (`reAction`). -/
def isActionChar (c : Char) : Bool :=
  c.isLower || c.isDigit || c = '.' || c = '_' || c = '-'

def reActionOk (s : String) : Bool :=
  s ≠ "" && s.data.all isActionChar

/-- Go `reUser`: `^[a-z_][a-z0-9_-]*[$]?$`. -/
def reUserOk (s : String) : Bool :=
  match s.data with
  | [] => false
  | c :: rest =>
    (c.isLower || c = '_') &&
    (let mid := if rest.getLast? = some '$' then rest.dropLast else rest
     mid.all (fun d => d.isLower || d.isDigit || d = '_' || d = '-'))

/-- First validation error of one `matches[]` entry. -/
def matchErr (m : PkMatch) : Option String :=
  if m.actionId = "" && m.actionPfx = "" then
    some "match needs action_id or action_prefix"
  else if m.actionId ≠ "" && !reActionOk m.actionId then some "bad action_id"
  else if m.actionPfx ≠ "" && !reActionOk m.actionPfx then
    some "bad action_prefix"
  else none

/-- First validation error of one rule. -/
def ruleErr (r : PkRule) : Option String :=
  if !reNameOk r.name then some "rule name invalid"
  else if r.ruleMatches = [] then some "rule matches empty"
  else
    match r.ruleMatches.findSome? matchErr with
    | some e => some e
    | none =>
      if r.subject.group ≠ "" && !reUserOk r.subject.group then
        some "bad subject.group"
      else if r.subject.user ≠ "" && !reUserOk r.subject.user then
        some "bad subject.user"
      else none

/-- Go `(*Policy).Validate` of pkg/polkit. -/
def pkValidate (p : PkPolicy) : Except String Unit :=
  if p.kind ≠ "PolkitPolicy" then .error "kind must be PolkitPolicy"
  else if !reNameOk p.name then .error "metadata.name invalid"
  else if p.rules = [] then .error "spec.rules empty"
  else
    match p.rules.findSome? ruleErr with
    | some e => .error e
    | none => .ok ()

/-- The fixed preamble (`header` constant of the polkit renderer). -/
def pkHeader : String :=
  "polkit.addRule(function(action, subject) \x7b\n" ++
  "  function isActive() \x7b return !!subject.active; \x7d\n" ++
  "  function inGroup(g) \x7b try \x7b return subject.isInGroup(g); \x7d catch(e) \x7b return false; \x7d \x7d\n" ++
  "  function isUser(u)  \x7b try \x7b return subject.user === u; \x7d catch(e) \x7b return false; \x7d \x7d\n" ++
  "  function unitStartsWith(prefix) \x7b\n" ++
  "    try \x7b if (!action.lookup) return false; var u = action.lookup(\"unit\") || \"\"; return u.indexOf(prefix) === 0; \x7d\n" ++
  "    catch(e) \x7b return false; \x7d\n" ++
  "  \x7d\n"

/-- The fixed footer (`footer` constant of the polkit renderer). -/
def pkFooter : String :=
  "\n  // fallthrough: not handled\n\x7d);\n"

/-- Go `matchCond`. -/
def matchCond (m : PkMatch) : String :=
  if m.actionId ≠ "" then "action.id === " ++ jsString m.actionId
  else "action.id.indexOf(" ++ jsString m.actionPfx ++ ") === 0"

/-- Go `subjectCond`. -/
def subjectCond (s : PkSubject) : String :=
  let parts : List String :=
    (match s.active with
     | some true => ["isActive()"]
     | some false => ["!isActive()"]
     | none => []) ++
    (if s.group ≠ "" then ["inGroup(" ++ jsString s.group ++ ")"] else []) ++
    (if s.user ≠ "" then ["isUser(" ++ jsString s.user ++ ")"] else [])
  if parts = [] then ""
  else " && (" ++ String.intercalate " && " parts ++ ")"

/-- Go `unitCond`. -/
def unitCond (pfx : String) : String :=
  if pfx = "" then "" else " && unitStartsWith(" ++ jsString pfx ++ ")"

/-- Go `writeRule`: the emitted text of one rule. -/
def writeRule (r : PkRule) : String :=
  "\n  // ---- " ++ jsComment r.name ++ " ----\n" ++
  String.join (r.ruleMatches.map (fun m =>
    "  if (" ++ matchCond m ++ subjectCond r.subject ++ unitCond r.unitPfx ++
    ") return " ++ resultJS r.result ++ ";\n")) ++
  (match r.defaultResult with
   | none => ""
   | some d =>
     String.join (r.ruleMatches.map (fun m =>
       if m.actionPfx ≠ "" then
         "  if (action.id.indexOf(" ++ jsString m.actionPfx ++
         ") === 0) return " ++ resultJS d ++ ";\n"
       else "")))

/-- Forbidden JavaScript substrings refused by the polkit renderer. -/
def pkForbidden : List String :=
  ["eval(", "Function(", "require(", "import("]

/-- Embedding of the polkit `Render`.  The `now` argument threads the
ambient clock (Go code may call `time.Now()` anywhere); this renderer
never reads it.  `sort.Slice` by rule name is modelled with a merge
sort; rule order between equal names is unspecified in Go as well.
The sha256 hex digest also returned by the Go function is elided. -/
def pkRender (p : PkPolicy) (now : String) : Except String String :=
  match pkValidate p with
  | .error e => .error e
  | .ok _ =>
    let rules := p.rules.mergeSort (fun a b => decide (a.name ≤ b.name))
    let js := pkHeader ++ String.join (rules.map writeRule) ++ pkFooter
    if pkForbidden.any (fun bad => goContains js bad) then
      .error "forbidden token in output"
    else .ok js

def pkTargetPath (name : String) : String :=
  "/etc/polkit-1/rules.d/60-lgpo-" ++ name ++ ".rules"

/-! ## Dconf policy package (`pkg/dconf`) -/

/-- A dconf policy; `settings` is the schema-path → (key → value)
mapping embedded as association lists. -/
structure DcPolicy where
  kind : String
  name : String
  selector : Sel
  settings : List (String × List (String × String))
  locks : List String
  deriving DecidableEq, Repr

/-- Go `(*Policy).Validate` of pkg/dconf. -/
def dcValidate (p : DcPolicy) : Except String Unit :=
  if p.kind ≠ "DconfPolicy" then .error "kind must be DconfPolicy"
  else if p.name = "" then .error "metadata.name required"
  else if p.settings = [] && p.locks = [] then .error "need settings and/or locks"
  else .ok ()

/-- The inner key→value map of one schema path. -/
def dcInner (p : DcPolicy) (g : String) : List (String × String) :=
  match p.settings.find? (fun kv => kv.1 == g) with
  | some kv => kv.2
  | none => []

/-- The sorted group keys of the settings map. -/
def dcGroups (p : DcPolicy) : List String :=
  sortStr (p.settings.map Prod.fst)

/-- The emitted text of one `[group]` section: sorted `key=value`
lines followed by a blank line. -/
def dcSection (p : DcPolicy) (g : String) : String :=
  let inner := dcInner p g
  "[" ++ g ++ "]\n" ++
  String.join ((sortStr (inner.map Prod.fst)).map
    (fun k => k ++ "=" ++ mapGet inner k ++ "\n")) ++
  "\n"

/-- The settings keyfile bytes. -/
def dcSettingsOut (p : DcPolicy) : String :=
  String.join ((dcGroups p).map (dcSection p))

/-- The locks file bytes: one lock path per line (`fmt.Fprintln`). -/
def dcLocksOut (p : DcPolicy) : String :=
  String.join (p.locks.map (fun l => l ++ "\n"))

/-- Embedding of the dconf `Render` (settings bytes, locks bytes).
`now` threads the ambient clock; this renderer never reads it.  The
two sha256 digests returned by the Go function are elided. -/
def dcRender (p : DcPolicy) (now : String) : Except String (String × String) :=
  match dcValidate p with
  | .error e => .error e
  | .ok _ => .ok (dcSettingsOut p, dcLocksOut p)

/-- Go `TargetPaths` of pkg/dconf. -/
def dcTargetPaths (name : String) : String × String :=
  ("/etc/dconf/db/local.d/60-lgpo-" ++ name,
   "/etc/dconf/db/local.d/locks/60-lgpo-" ++ name)

/-! ## Modprobe policy package (`pkg/modprobe`, draft part_001) -/

structure MpPolicy where
  kind : String
  name : String
  selector : Sel
  blacklist : List String
  installFalse : Bool
  updateInitramfs : Bool
  instantApply : Bool
  deriving DecidableEq, Repr

/-- Go `reModule`: `^[a-z0-9]([-_a-z0-9]*[a-z0-9])?$`. -/
def reModuleOk (s : String) : Bool :=
  match s.data with
  | [] => false
  | c :: rest =>
    (c.isLower || c.isDigit) &&
    (match rest.getLast? with
     | none => true
     | some d =>
       (d.isLower || d.isDigit) &&
       rest.dropLast.all (fun e => e = '-' || e = '_' || e.isLower || e.isDigit))

/-- Go `alts`: the underscore and hyphen alias spellings, in byte
order, collapsed when equal. -/
def alts (m : String) : List String :=
  let u := replaceChar m '-' '_'
  let h := replaceChar m '_' '-'
  if u = h then [u] else if u < h then [u, h] else [h, u]

/-- Append `a` unless already present (the `seen` set of `Validate`). -/
def addIfNew (acc : List String) (a : String) : List String :=
  if a ∈ acc then acc else acc ++ [a]

/-- The canonicalization loop of `Validate`: trim, check the module
regex, push both alias forms, first error wins. -/
def canonLoop : List String → List String → Except String (List String)
  | [], acc => .ok acc
  | m :: rest, acc =>
    let t := goTrim m
    if reModuleOk t then canonLoop rest ((alts t).foldl addIfNew acc)
    else .error ("bad module " ++ t)

/-- Go `(*Policy).Validate` of pkg/modprobe (draft part_001): on
success the policy's blacklist is replaced by the sorted canonical
set. -/
def mpValidate (p : MpPolicy) : Except String MpPolicy :=
  if p.kind ≠ "ModprobePolicy" then .error "kind must be ModprobePolicy"
  else if !reNameOk p.name then .error "metadata.name invalid"
  else if p.blacklist = [] then .error "blacklist empty"
  else
    match canonLoop p.blacklist [] with
    | .error e => .error e
    | .ok norm => .ok { p with blacklist := sortStr norm }

/-- One emitted module stanza: the `blacklist` line, plus the
`install <mod> /bin/false` line when `installFalse` is set. -/
def mpLine (installFalse : Bool) (m : String) : String :=
  "blacklist " ++ m ++ "\n" ++
  (if installFalse then "install " ++ m ++ " /bin/false\n" else "")

/-- The module stanzas of the rendered file, in sorted order
(`sort.Strings(mods)` of `Render`). -/
def mpBody (p : MpPolicy) : String :=
  String.join ((sortStr p.blacklist).map (mpLine p.installFalse))

/-- Embedding of the modprobe `Render` (draft part_001).  `now` is the
ambient clock formatted as RFC 3339 UTC: the Go code interpolates
`time.Now().UTC().Format(time.RFC3339)` into the second header line.
The sha256 digest returned by the Go function is elided. -/
def mpRender (p : MpPolicy) (now : String) : Except String String :=
  match mpValidate p with
  | .error e => .error e
  | .ok q =>
    .ok ("# Managed by lgpo - " ++ q.name ++ "\n# Generated " ++ now ++
      "\n\n" ++ mpBody q)

/-- Go `TargetPath` of pkg/modprobe. -/
def mpTargetPath (name : String) : String :=
  "/etc/modprobe.d/60-lgpo-" ++ name ++ ".conf"

/-! ## Repository syncer (`pkg/git`, draft part_006) -/

/-- Outcomes of the external `git` invocations of one `Ensure` call,
reified as a value: the HTTPS-credential sync attempt, the SSH
(device-key) sync attempt, and the `push --dry-run` probe (exit
status and combined output).  The random probe refname does not
influence any outcome and is not modelled. -/
structure GitWorld where
  httpsResult : Except String String
  sshResult : Except String String
  pushDryRunOk : Bool
  pushDryRunOut : String
  deriving Repr

/-- Go `isSSHURL`. -/
def isSSHURL (u : String) : Bool :=
  goHasPfx u "git@" || goHasPfx u "ssh://"

/-- The `(?i)(permission denied|write access to repository not
granted|read[- ]only|deploy key|access denied)` signal of
`assertReadOnly`, modelled by lowercasing the haystack. -/
def deniedSignal (out : String) : Bool :=
  let l := goToLower out
  goContains l "permission denied" ||
  goContains l "write access to repository not granted" ||
  goContains l "read-only" || goContains l "read only" ||
  goContains l "deploy key" || goContains l "access denied"

/-- Go `isAuthError`. -/
def isAuthErrorMsg (msg : String) : Bool :=
  let m := goToLower msg
  goContains m "authentication" || goContains m "permission" ||
  goContains m "access denied" || goContains m "not found" ||
  goContains m "authorization"

/-- Go `assertReadOnly`: a clean probe exit means the credential can
write; a denied-signal failure means read-only; anything else is
inconclusive. -/
def assertReadOnly (w : GitWorld) : Except String Bool :=
  if w.pushDryRunOk then .ok false
  else if deniedSignal w.pushDryRunOut then .ok true
  else .error ("unexpected push dry-run error: " ++ goTrim w.pushDryRunOut)

def writeCapMsg : String :=
  "credentials appear to be WRITE-capable; refusing to proceed"

/-- Embedding of `Ensure` (draft part_006).  The clone/fetch/reset
mechanics of `ensureWith` are reified into the world's sync results. -/
def gitEnsure (repo : String) (w : GitWorld) : Except String String :=
  if isSSHURL repo then
    match w.sshResult with
    | .error e => .error e
    | .ok commit =>
      match assertReadOnly w with
      | .error ce => .error ("read-only check failed: " ++ ce)
      | .ok ro => if ro then .ok commit else .error writeCapMsg
  else
    match w.httpsResult with
    | .ok c => .ok c
    | .error e =>
      if goHasPfx repo "https://github.com/" ||
          goHasPfx repo "http://github.com/" then
        match w.sshResult with
        | .ok commit =>
          (match assertReadOnly w with
           | .error ce =>
             .error ("repo synced but read-only check failed: " ++ ce)
           | .ok ro => if ro then .ok commit else .error writeCapMsg)
        | .error sshErr =>
          if isAuthErrorMsg e then
            .error ("failed to access private repo via SSH deploy key: " ++ sshErr)
          else .error e
      else .error e

/-! ## Reconciler (`pkg/run`, `RunOnce`) as an effect-trace model

`RunOnce` is embedded as a pure function from an explicit `World`
(the reified outcomes of everything it reads: git, decoded policy
files, facts, tags, the managed set, the filesystem, the clock) to a
trace of the effects it performs.  Filesystem operations are modelled
as always succeeding, so the error-only branches of `applyAtomic`
(best-effort temp-file cleanup) do not appear.  Log lines, including
the enrollment hint emitted on auth-class sync errors, are not
effects of the model. -/

/-- The modprobe renderer as consumed by `RunOnce`
(`conf, mods, err := mp.Render(&p)`).  The bytes are those of draft
part_001; the second component is the canonical module-name set.
Modelled from the spec: the repository's compiled `Render` variant
(absent from src/) additionally "returns the canonical module-name
set for the Reconciler to consult when `instantApply` is requested";
that set is exactly the validated canonical blacklist. -/
def mpRenderFull (p : MpPolicy) (now : String) :
    Except String (String × List String) :=
  match mpValidate p with
  | .error e => .error e
  | .ok q =>
    .ok ("# Managed by lgpo - " ++ q.name ++ "\n# Generated " ++ now ++
      "\n\n" ++ mpBody q, q.blacklist)

/-- One `.yml` file of the policies directory after the envelope peek
and variant decode of the walk callback. -/
inductive PolicyDoc where
  | unreadable
  | badYaml
  | unknownKind
  | pk (p : PkPolicy)
  | dc (p : DcPolicy)
  | mpp (p : MpPolicy)

/-- A planned artifact (`applyItem`). -/
structure ApplyItem where
  path : String
  data : String
  mode : Nat
  deriving DecidableEq, Repr

/-- An observable effect of one reconciliation. -/
inductive Effect where
  | gitSync
  | invSync
  | render (kind name : String)
  | removeFile (p : String)
  | mkdirAll (dir : String)
  | writeTemp (p : String) (data : String) (mode : Nat)
  | chmod (p : String) (mode : Nat)
  | rename (src dst : String)
  | profileEnsure
  | execCmd (bin : String) (args : List String)
  | saveManaged (items : List String)
  | statusWrite
  | auditAppend
  deriving DecidableEq, Repr

/-- Everything one `RunOnce` call reads, reified. -/
structure World where
  repo : String
  git : GitWorld
  policies : List PolicyDoc
  facts : List (String × String)
  tags : List (String × String)
  prevManaged : List String
  fileExists : String → Bool
  fileContent : String → Option String
  loadedModule : String → Bool
  now : String

/-- The four-entry path allow-list of `RunOnce` / `applyAtomic`. -/
def allowedPath (p : String) : Bool :=
  goHasPfx p "/etc/polkit-1/rules.d/60-lgpo-" ||
  goHasPfx p "/etc/dconf/db/local.d/60-lgpo-" ||
  goHasPfx p "/etc/dconf/db/local.d/locks/60-lgpo-" ||
  goHasPfx p "/etc/modprobe.d/60-lgpo-"

/-- Accumulator of the policies-directory walk. -/
structure WalkState where
  toApply : List ApplyItem
  desired : List String
  desiredManaged : List String
  initramfsTouched : Bool
  runtimeMods : List String
  renders : List (String × String)
  panicked : Bool
  deriving Repr

def WalkState.init : WalkState := ⟨[], [], [], false, [], [], false⟩

/-- One iteration of the walk callback: decode dispatch, selector
evaluation (a bad `hostnameRegex` panics), render, accumulate. -/
def walkStep (w : World) (st : WalkState) : PolicyDoc → WalkState
  | .unreadable => st
  | .badYaml => st
  | .unknownKind => st
  | .pk p =>
    match selMatch p.selector ⟨w.facts, w.tags⟩ with
    | none => { st with panicked := true }
    | some false => st
    | some true =>
      match pkRender p w.now with
      | .error _ => st
      | .ok js =>
        let tgt := pkTargetPath p.name
        { st with
          toApply := st.toApply ++ [⟨tgt, js, 0o644⟩],
          desired := st.desired ++ [tgt],
          desiredManaged := st.desiredManaged ++ [tgt],
          renders := st.renders ++ [("PolkitPolicy", p.name)] }
  | .dc p =>
    match selMatch p.selector ⟨w.facts, w.tags⟩ with
    | none => { st with panicked := true }
    | some false => st
    | some true =>
      match dcRender p w.now with
      | .error _ => st
      | .ok (settings, locks) =>
        let sp := (dcTargetPaths p.name).1
        let lp := (dcTargetPaths p.name).2
        { st with
          toApply := st.toApply ++ [⟨sp, settings, 0o644⟩, ⟨lp, locks, 0o644⟩],
          desired := st.desired ++ [sp, lp],
          desiredManaged := st.desiredManaged ++ [sp, lp],
          renders := st.renders ++ [("DconfPolicy", p.name)] }
  | .mpp p =>
    match selMatch p.selector ⟨w.facts, w.tags⟩ with
    | none => { st with panicked := true }
    | some false => st
    | some true =>
      match mpRenderFull p w.now with
      | .error _ => st
      | .ok (conf, mods) =>
        let tgt := mpTargetPath p.name
        { st with
          toApply := st.toApply ++ [⟨tgt, conf, 0o644⟩],
          desired := st.desired ++ [tgt],
          desiredManaged := st.desiredManaged ++ [tgt],
          initramfsTouched := st.initramfsTouched || p.updateInitramfs,
          runtimeMods := st.runtimeMods ++
            (if p.instantApply then mods else []),
          renders := st.renders ++ [("ModprobePolicy", p.name)] }

/-- The walk over the policies directory; a panic aborts it. -/
def walkAll (w : World) : List PolicyDoc → WalkState → WalkState
  | [], st => st
  | d :: rest, st =>
    let st' := walkStep w st d
    if st'.panicked then st' else walkAll w rest st'

/-- Accumulator of the drift-cleanup loop. -/
structure DelState where
  effects : List Effect
  removed : Nat
  dconfTouched : Bool
  changedModprobe : Bool
  deriving Repr

/-- One iteration of the drift-cleanup loop over `prev.Items`. -/
def delStep (w : World) (dry : Bool) (desired : List String)
    (st : DelState) (path : String) : DelState :=
  if path ∈ desired then st
  else if !allowedPath path then st
  else if w.fileExists path then
    if dry then { st with removed := st.removed + 1 }
    else
      { effects := st.effects ++ [.removeFile path],
        removed := st.removed + 1,
        dconfTouched := st.dconfTouched ||
          goHasPfx path "/etc/dconf/db/local.d/",
        changedModprobe := st.changedModprobe ||
          goHasPfx path "/etc/modprobe.d/" }
  else st

def delLoop (w : World) (dry : Bool) (desired prev : List String) : DelState :=
  prev.foldl (delStep w dry desired) ⟨[], 0, false, false⟩

/-- Go `filepath.Dir` on the clean absolute paths used here. -/
def parentDir (p : String) : String :=
  match p.data.reverse.dropWhile (fun c => c ≠ '/') with
  | [] => "."
  | ['/'] => "/"
  | _ :: restRev => String.mk restRev.reverse

/-- Embedding of `applyAtomic`: (did the file change, effects).
The model filesystem accepts every operation, so the error-cleanup
branches (temp-file removal) are unreachable and not emitted. -/
def applyAtomicModel (w : World) (dry : Bool) (it : ApplyItem) :
    Bool × List Effect :=
  if !allowedPath it.path then (false, [])
  else
    let same : Bool :=
      match w.fileContent it.path with
      | some b => b == it.data
      | none => false
    if same then (false, [])
    else if dry then (true, [])
    else
      let tmp := it.path ++ ".lgpo-tmp"
      (true, [.mkdirAll (parentDir it.path), .writeTemp tmp it.data 0o600,
              .chmod tmp it.mode, .rename tmp it.path])

/-- Accumulator of the artifact-application loop. -/
structure AppState where
  effects : List Effect
  changed : Nat
  dconfTouched : Bool
  changedModprobe : Bool
  deriving Repr

def appStep (w : World) (dry : Bool) (st : AppState) (it : ApplyItem) :
    AppState :=
  let r := applyAtomicModel w dry it
  if r.1 then
    { effects := st.effects ++ r.2,
      changed := st.changed + 1,
      dconfTouched := st.dconfTouched ||
        goHasPfx it.path "/etc/dconf/db/local.d/" ||
        goHasPfx it.path "/etc/dconf/db/local.d/locks/",
      changedModprobe := st.changedModprobe ||
        goHasPfx it.path "/etc/modprobe.d/" }
  else { st with effects := st.effects ++ r.2 }

/-- Go `unique`. -/
def uniqueList (l : List String) : List String := l.foldl addIfNew []

/-- The instant-apply post-step: `modprobe -r` for each unique
requested module currently loaded.  `World.loadedModule` reifies the
underscore/hyphen scan of `/proc/modules`. -/
def instantEffects (w : World) (mods : List String) : List Effect :=
  (uniqueList mods).filterMap (fun m =>
    if w.loadedModule m then some (.execCmd "modprobe" ["-r", m]) else none)

/-- Result of one `RunOnce`: effect trace, returned error, whether a
selector panic unwound the call, and the changed/removed counters. -/
structure RunResult where
  trace : List Effect
  outcome : Except String Unit
  panicked : Bool
  changed : Nat
  removed : Nat

/-- The part of `RunOnce` after a successful sync and a panic-free
policy walk: drift cleanup, artifact application, post-steps,
managed-set save, status write and audit append. -/
def runOnceMain (w : World) (dry : Bool) (st : WalkState) : RunResult :=
  let renderEffs := st.renders.map (fun kn => Effect.render kn.1 kn.2)
  let del := delLoop w dry st.desired w.prevManaged
  let app := st.toApply.foldl (appStep w dry)
    ⟨[], 0, del.dconfTouched, del.changedModprobe⟩
  let postDconf : List Effect :=
    if !dry && app.dconfTouched then
      [.profileEnsure,
       .execCmd "dconf" ["compile", "/tmp/local.dconf", "/etc/dconf/db/local.d"],
       .execCmd "dconf" ["update"]]
    else []
  let postInitramfs : List Effect :=
    if !dry && st.initramfsTouched then
      [.execCmd "update-initramfs" ["-u"]]
    else []
  let postModprobe : List Effect :=
    if !dry && app.changedModprobe && st.runtimeMods ≠ [] then
      instantEffects w st.runtimeMods
    else []
  let save : List Effect :=
    if !dry then [.saveManaged st.desiredManaged] else []
  let mid : List Effect :=
    renderEffs ++ del.effects ++ app.effects ++ postDconf ++
      postInitramfs ++ postModprobe ++ save
  ⟨([Effect.gitSync, Effect.invSync] ++ mid) ++ [.statusWrite, .auditAppend],
   .ok (), false, app.changed, del.removed⟩

/-- `RunOnce` after a successful repository sync: policy walk first; a
selector panic unwinds the call with the effects performed so far. -/
def runOnceOk (w : World) (dry : Bool) : RunResult :=
  let st := walkAll w w.policies WalkState.init
  if st.panicked then
    ⟨[Effect.gitSync, Effect.invSync] ++
      st.renders.map (fun kn => Effect.render kn.1 kn.2),
     .error "panic: bad hostnameRegex", true, 0, 0⟩
  else runOnceMain w dry st

/-- Embedding of `RunOnce` (src/pkg/run/run.go).  Fact refresh is a
pure read (`World.facts`); the inventory sync and tag reload are
reified into `Effect.invSync` and `World.tags`.  On a sync error the
function returns that error before any rendering, deletion, status
write or audit append (the enrollment hint is only a log line). -/
def runOnce (w : World) (dry : Bool) : RunResult :=
  match gitEnsure w.repo w.git with
  | .error e => ⟨[.gitSync], .error e, false, 0, 0⟩
  | .ok _ => runOnceOk w dry

/-- The desired target-path set of one run (the walk's accumulation). -/
def desiredOf (w : World) : List String :=
  (walkAll w w.policies WalkState.init).desired

/-- Effect classification: does the effect mutate a target file,
perform the temp-file sequence, execute a post-step command, or
re-persist the managed set?  (`gitSync`/`invSync`/`render`/status/
audit are outside the claim's enumeration.) -/
def mutatingEffect : Effect → Bool
  | .removeFile _ => true
  | .mkdirAll _ => true
  | .writeTemp _ _ _ => true
  | .chmod _ _ => true
  | .rename _ _ => true
  | .profileEnsure => true
  | .execCmd _ _ => true
  | .saveManaged _ => true
  | _ => false

def isRenderEff : Effect → Bool
  | .render _ _ => true
  | _ => false

def isAuditEff : Effect → Bool
  | .auditAppend => true
  | _ => false

def isStatusEff : Effect → Bool
  | .statusWrite => true
  | _ => false

def isRemoveEff : Effect → Bool
  | .removeFile _ => true
  | _ => false

/-- File-mutation effects of the apply loop (temp-file sequence). -/
def fileOpEff : Effect → Bool
  | .mkdirAll _ => true
  | .writeTemp _ _ _ => true
  | .chmod _ _ => true
  | .rename _ _ => true
  | _ => false

/-- The tag clause of the selector contract as a proposition, stated
independently of the Bool-level evaluator `tagEntryOk`: exact equality
for a string value, membership for a list value, rejection for any
other shape. -/
def tagClauseSat (ctx : SelCtx) (k : String) : YVal → Prop
  | .str v => mapGet ctx.tags k = v
  | .list items => ∃ s2, YItem.str s2 ∈ items ∧ mapGet ctx.tags k = s2
  | .other => False

/-! ## Concrete inputs used by witnesses and counterexamples -/

/-- The empty selector (matches everything). -/
def selTrue : Sel := ⟨[], [], ""⟩

/-- Scenario 2 of the spec: a ModprobePolicy blacklisting
`usb-storage` with `installFalse:true`. -/
def exMpPolicy : MpPolicy :=
  { kind := "ModprobePolicy", name := "usb", selector := selTrue,
    blacklist := ["usb-storage"], installFalse := true,
    updateInitramfs := true, instantApply := false }

/-- A ModprobePolicy whose module name is upper-case. -/
def exMpPolicyUpper : MpPolicy :=
  { exMpPolicy with blacklist := ["USB"] }

/-- Scenario 3 of the spec: a DconfPolicy with one setting and one
lock. -/
def exDcPolicy : DcPolicy :=
  { kind := "DconfPolicy", name := "session", selector := selTrue,
    settings := [("org/gnome/desktop/session", [("idle-delay", "uint32 300")])],
    locks := ["/org/gnome/desktop/session/idle-delay"] }

/-- A simple valid PolkitPolicy with one rule. -/
def exPkPolicy : PkPolicy :=
  { kind := "PolkitPolicy", name := "p", selector := selTrue,
    rules := [{ name := "r1",
                ruleMatches := [⟨"org.freedesktop.systemd1.manage-units", ""⟩],
                subject := ⟨some true, "admins", ""⟩,
                result := "YES", defaultResult := none, unitPfx := "" }] }

/-- The JavaScript `exPkPolicy` renders to. -/
def exPkJs : String :=
  pkHeader ++
  "\n  // ---- r1 ----\n  if (action.id === \"org.freedesktop.systemd1.manage-units\" && (isActive() && inGroup(\"admins\"))) return polkit.Result.YES;\n" ++
  pkFooter

/-- A git world whose sync succeeds over HTTPS. -/
def exGitOk : GitWorld :=
  ⟨.ok "c0ffee", .ok "c0ffee", false,
   "remote: Write access to repository not granted."⟩

/-- A world with a successful sync, an empty policies directory, and
a previously persisted managed set holding one allow-listed stale path
and one path outside the allow-list. -/
def exWorldOk : World :=
  { repo := "https://github.com/acme/policies",
    git := exGitOk,
    policies := [],
    facts := [("hostname", "wks-01")],
    tags := [],
    prevManaged := ["/etc/modprobe.d/60-lgpo-old.conf", "/etc/cron.d/evil"],
    fileExists := fun _ => true,
    fileContent := fun _ => none,
    loadedModule := fun _ => false,
    now := "2024-01-01T00:00:00Z" }

/-- A world whose repository sync fails (non-auth error). -/
def exWorldSyncFail : World :=
  { exWorldOk with
    git := ⟨.error "fatal: could not read from remote repository", .error "x",
            false, ""⟩ }

/-- A world with an SSH remote whose push dry-run probe succeeds: the
deploy credential is write-capable. -/
def exWorldSSH : World :=
  { exWorldOk with
    repo := "git@github.com:acme/policies.git",
    git := ⟨.error "unused", .ok "c0ffee", true, ""⟩ }

deriving instance DecidableEq for Except

/-! # Theorems

General-purpose lemmas first, then one theorem per claim (with its
witness or counterexample where required). -/

theorem sortStr_sorted (l : List String) :
    (sortStr l).Sorted (· ≤ ·) := by
  have h := @List.sorted_mergeSort String (fun a b : String => decide (a ≤ b))
      (fun a b c h₁ h₂ => by
        simp only [decide_eq_true_eq] at *
        exact le_trans h₁ h₂)
      (fun a b => by
        simpa using le_total a b) l
  simpa [sortStr, List.Sorted] using h

theorem sortStr_perm (l : List String) : List.Perm (sortStr l) l :=
  List.mergeSort_perm l _

theorem mem_sortStr {a : String} {l : List String} :
    a ∈ sortStr l ↔ a ∈ l := List.mem_mergeSort

theorem mem_addIfNew {acc : List String} {a x : String} :
    x ∈ addIfNew acc a ↔ x ∈ acc ∨ x = a := by
  unfold addIfNew
  by_cases h : a ∈ acc
  · simp only [if_pos h]
    constructor
    · exact .inl
    · rintro (hx | rfl)
      · exact hx
      · exact h
  · simp [if_neg h]

theorem nodup_addIfNew {acc : List String} (a : String)
    (h : acc.Nodup) : (addIfNew acc a).Nodup := by
  unfold addIfNew
  by_cases hm : a ∈ acc
  · simpa [if_pos hm]
  · simp only [if_neg hm]
    exact List.Nodup.append h (List.nodup_singleton a)
      (by simpa using hm)

theorem mem_foldl_addIfNew (l : List String) (acc : List String) (x : String) :
    x ∈ l.foldl addIfNew acc ↔ x ∈ acc ∨ x ∈ l := by
  induction l generalizing acc with
  | nil => simp
  | cons a rest ih =>
    rw [List.foldl_cons, ih, mem_addIfNew]
    simp only [List.mem_cons]
    tauto

theorem nodup_foldl_addIfNew (l : List String) (acc : List String)
    (h : acc.Nodup) : (l.foldl addIfNew acc).Nodup := by
  induction l generalizing acc with
  | nil => simpa
  | cons a rest ih =>
    rw [List.foldl_cons]
    exact ih _ (nodup_addIfNew a h)

theorem canonLoop_mem (l : List String) (acc out : List String)
    (h : canonLoop l acc = .ok out) (x : String) :
    x ∈ out ↔ x ∈ acc ∨ ∃ m ∈ l, x ∈ alts (goTrim m) := by
  induction l generalizing acc with
  | nil =>
    unfold canonLoop at h
    cases h
    simp
  | cons a rest ih =>
    unfold canonLoop at h
    by_cases hre : reModuleOk (goTrim a)
    · rw [if_pos hre] at h
      rw [ih _ h, mem_foldl_addIfNew]
      simp only [List.mem_cons]
      constructor
      · rintro ((hx | hx) | ⟨m, hm, hx⟩)
        · exact .inl hx
        · exact .inr ⟨a, .inl rfl, hx⟩
        · exact .inr ⟨m, .inr hm, hx⟩
      · rintro (hx | ⟨m, (rfl | hm), hx⟩)
        · exact .inl (.inl hx)
        · exact .inl (.inr hx)
        · exact .inr ⟨m, hm, hx⟩
    · rw [if_neg hre] at h
      exact absurd h (by simp)

theorem canonLoop_nodup (l : List String) (acc out : List String)
    (h : canonLoop l acc = .ok out) (hacc : acc.Nodup) : out.Nodup := by
  induction l generalizing acc with
  | nil =>
    unfold canonLoop at h
    cases h
    exact hacc
  | cons a rest ih =>
    unfold canonLoop at h
    by_cases hre : reModuleOk (goTrim a)
    · rw [if_pos hre] at h
      exact ih _ h (nodup_foldl_addIfNew _ _ hacc)
    · rw [if_neg hre] at h
      exact absurd h (by simp)

theorem tagEntryOk_iff (ctx : SelCtx) (k : String) :
    ∀ v, tagEntryOk ctx k v = true ↔ tagClauseSat ctx k v
  | .str v => by simp [tagEntryOk, tagClauseSat]
  | .list items => by
    simp only [tagEntryOk, tagClauseSat, List.any_eq_true]
    constructor
    · rintro ⟨it, hit, hke⟩
      cases it with
      | str ss => exact ⟨ss, hit, by simpa using hke⟩
      | nonStr => simp at hke
    · rintro ⟨ss, hss, hke⟩
      exact ⟨.str ss, hss, by simpa using hke⟩
  | .other => by simp [tagEntryOk, tagClauseSat]

/-- C10: the rule-result → JavaScript mapping is total and fails
closed: any result string other than `YES`, `NO`, `AUTH_ADMIN`,
`AUTH_ADMIN_KEEP` is emitted as `polkit.Result.NO`, so an unrecognized
result renders as a denial, never as a permit. -/
theorem resultJS_fails_closed (r : String)
    (h1 : r ≠ "YES") (h2 : r ≠ "NO") (h3 : r ≠ "AUTH_ADMIN")
    (h4 : r ≠ "AUTH_ADMIN_KEEP") :
    resultJS r = "polkit.Result.NO" := by
  simp [resultJS, h1, h2, h3, h4]

theorem resultJS_fails_closed_witness :
    resultJS "ALLOW" = "polkit.Result.NO" :=
  resultJS_fails_closed "ALLOW" (by decide) (by decide) (by decide) (by decide)

/-- C7: the polkit renderer never returns artifact bytes containing
`eval(`, `Function(`, `require(` or `import(`: whenever the generated
JavaScript contains one of these substrings, `Render` returns an error
and no bytes. -/
theorem pkRender_no_forbidden (p : PkPolicy) (now js : String)
    (h : pkRender p now = .ok js) :
    goContains js "eval(" = false ∧ goContains js "Function(" = false ∧
    goContains js "require(" = false ∧ goContains js "import(" = false := by
  unfold pkRender at h
  cases hv : pkValidate p with
  | error e => rw [hv] at h; exact absurd h (by simp)
  | ok u =>
    rw [hv] at h
    dsimp only at h
    split at h
    · exact absurd h (by simp)
    · rename_i hb
      injection h with h
      subst h
      simp only [pkForbidden, List.any_cons, List.any_nil, Bool.or_eq_true,
        not_or, Bool.not_eq_true, Bool.or_eq_false_iff] at hb
      exact ⟨hb.1, hb.2.1, hb.2.2.1, hb.2.2.2.1⟩

theorem pkRender_no_forbidden_witness :
    goContains exPkJs "eval(" = false ∧ goContains exPkJs "Function(" = false ∧
    goContains exPkJs "require(" = false ∧ goContains exPkJs "import(" = false :=
  pkRender_no_forbidden exPkPolicy "" exPkJs (by decide)

/-- C1 (amended): the polkit and dconf renderers are pure,
deterministic functions of the policy alone — their output is
invariant under the ambient clock; the modprobe renderer depends on
the invocation time exactly through the `# Generated <timestamp>`
header line it interpolates, the remainder (`mpBody`) being a function
of the policy alone. -/
theorem renderers_clock_independence (p1 : PkPolicy) (p2 : DcPolicy)
    (p3 : MpPolicy) (n1 n2 : String) :
    pkRender p1 n1 = pkRender p1 n2 ∧
    dcRender p2 n1 = dcRender p2 n2 ∧
    (∀ q, mpValidate p3 = .ok q →
      mpRender p3 n1 =
        .ok ("# Managed by lgpo - " ++ q.name ++ "\n# Generated " ++ n1 ++
          "\n\n" ++ mpBody q)) := by
  refine ⟨rfl, rfl, ?_⟩
  intro q hq
  simp [mpRender, hq]

theorem renderers_clock_independence_witness :
    mpRender exMpPolicy "A" =
      .ok ("# Managed by lgpo - usb\n# Generated A\n\nblacklist usb-storage\ninstall usb-storage /bin/false\nblacklist usb_storage\ninstall usb_storage /bin/false\n") := by
  have h := (renderers_clock_independence exPkPolicy exDcPolicy exMpPolicy
      "A" "B").2.2 { exMpPolicy with blacklist := ["usb-storage", "usb_storage"] }
      (by decide)
  exact h.trans (by decide)

/-- C1 counterexample: the claim asserts byte-for-byte determinism of
every renderer variant across invocations, with no dependence on the
invocation time.  The modprobe renderer interpolates
`time.Now().UTC()` into its `# Generated` header line, so the same
well-formed policy rendered at two different instants yields different
bytes. -/
theorem mpRender_timestamp_cex :
    mpRender exMpPolicy "2024-01-01T00:00:00Z" ≠
    mpRender exMpPolicy "2024-01-01T00:00:01Z" := by decide

/-- C6 (amended): modprobe blacklist canonicalization happens in
`Validate`, not `Render`; each (whitespace-trimmed) module name is
required to already be lower-case (`^[a-z0-9]([-_a-z0-9]*[a-z0-9])?$`
rejects anything else — names are NOT lower-cased), both the
underscore and the hyphen alias form of every accepted name are
emitted, and the canonical set is lexicographically sorted and
duplicate-free.  For `spec.blacklist ["usb-storage"]` with
`installFalse` true, the rendered file contains after the header lines
the sorted pair `blacklist usb-storage`, `blacklist usb_storage`,
each followed by `install <mod> /bin/false`. -/
theorem mpValidate_canonical_blacklist :
    (∀ p q, mpValidate p = .ok q →
      q.blacklist.Sorted (· ≤ ·) ∧ q.blacklist.Nodup ∧
      (∀ m ∈ p.blacklist, ∀ a ∈ alts (goTrim m), a ∈ q.blacklist) ∧
      (∀ a ∈ q.blacklist, ∃ m ∈ p.blacklist, a ∈ alts (goTrim m))) ∧
    mpRender exMpPolicy "2024-01-01T00:00:00Z" =
      .ok ("# Managed by lgpo - usb\n# Generated 2024-01-01T00:00:00Z\n\nblacklist usb-storage\ninstall usb-storage /bin/false\nblacklist usb_storage\ninstall usb_storage /bin/false\n") := by
  constructor
  · intro p q h
    unfold mpValidate at h
    split at h
    · exact absurd h (by simp)
    · split at h
      · exact absurd h (by simp)
      · split at h
        · exact absurd h (by simp)
        · cases hc : canonLoop p.blacklist [] with
          | error e => rw [hc] at h; exact absurd h (by simp)
          | ok norm =>
            rw [hc] at h
            injection h with h
            subst h
            refine ⟨sortStr_sorted norm, ?_, ?_, ?_⟩
            · exact ((sortStr_perm norm).nodup_iff).mpr
                (canonLoop_nodup _ _ _ hc List.nodup_nil)
            · intro m hm a ha
              rw [mem_sortStr, canonLoop_mem _ _ _ hc]
              exact .inr ⟨m, hm, ha⟩
            · intro a ha
              rw [mem_sortStr, canonLoop_mem _ _ _ hc] at ha
              rcases ha with ha | ha
              · exact absurd ha (List.not_mem_nil a)
              · exact ha
  · decide

theorem mpValidate_canonical_blacklist_witness :
    (["usb-storage", "usb_storage"] : List String).Sorted (· ≤ ·) ∧
    (["usb-storage", "usb_storage"] : List String).Nodup := by
  have h := mpValidate_canonical_blacklist.1 exMpPolicy
      { exMpPolicy with blacklist := ["usb-storage", "usb_storage"] }
      (by decide)
  exact ⟨h.1, h.2.1⟩

/-- C6 counterexample: the claim says validation lower-cases each
module name; on `blacklist ["USB"]` the source instead rejects the
policy (`reModule` admits only `[a-z0-9-_]` shapes), so no lower-cased
canonical set is ever produced. -/
theorem mpValidate_no_lowercasing_cex :
    mpValidate exMpPolicyUpper = .error "bad module USB" := by decide

/-- C9: the dconf renderer emits schema sections in sorted order, keys
within each section in sorted order, a blank line after each section,
and the locks artifact as one lock path per line; on the single
setting `org/gnome/desktop/session → idle-delay=uint32 300` with one
lock, the artifacts are byte-exactly as the spec's scenario states. -/
theorem dcRender_sorted_sections :
    (∀ p s l now, dcRender p now = .ok (s, l) →
      s = String.join ((dcGroups p).map (dcSection p)) ∧
      (dcGroups p).Sorted (· ≤ ·) ∧
      (∀ g, dcSection p g =
        "[" ++ g ++ "]\n" ++
        String.join ((sortStr ((dcInner p g).map Prod.fst)).map
          (fun k => k ++ "=" ++ mapGet (dcInner p g) k ++ "\n")) ++ "\n") ∧
      (∀ g, (sortStr ((dcInner p g).map Prod.fst)).Sorted (· ≤ ·)) ∧
      l = String.join (p.locks.map (fun lk => lk ++ "\n"))) ∧
    dcRender exDcPolicy "T" =
      .ok ("[org/gnome/desktop/session]\nidle-delay=uint32 300\n\n",
           "/org/gnome/desktop/session/idle-delay\n") := by
  constructor
  · intro p s l now h
    unfold dcRender at h
    cases hv : dcValidate p with
    | error e => rw [hv] at h; exact absurd h (by simp)
    | ok u =>
      rw [hv] at h
      dsimp only at h
      injection h with h
      obtain ⟨rfl, rfl⟩ := Prod.mk.injEq .. ▸ Prod.ext_iff.mp h.symm
      refine ⟨rfl, sortStr_sorted _, fun g => rfl, fun g => sortStr_sorted _, rfl⟩
  · decide

theorem dcRender_sorted_sections_witness :
    (dcGroups exDcPolicy).Sorted (· ≤ ·) := by
  have h := dcRender_sorted_sections.1 exDcPolicy
      "[org/gnome/desktop/session]\nidle-delay=uint32 300\n\n"
      "/org/gnome/desktop/session/idle-delay\n" "T" (by decide)
  exact h.2.1

/-- C3 (amended): `Sel.Match` applies a non-empty `hostnameRegex`
UNANCHORED (Go `MatchString` searches for a match anywhere in
`facts["hostname"]`), and a non-compiling pattern panics
(`regexp.MustCompile`) rather than returning false; with those two
corrections, `match` returns true iff the regex clause, every
`selector.facts` entry (missing fact keys read as `""`), and every
`selector.tags` entry (string equality / list membership / reject
other shapes) are satisfied.  The empty selector matches
everything. -/
theorem selMatch_characterization (s : Sel) (ctx : SelCtx) :
    (selMatch s ctx = some true ↔
      (s.hostnameRegex = "" ∨
        goMatchString s.hostnameRegex (mapGet ctx.facts "hostname") = some true) ∧
      (∀ kv ∈ s.facts, mapGet ctx.facts kv.1 = kv.2) ∧
      (∀ kv ∈ s.tags, tagClauseSat ctx kv.1 kv.2)) ∧
    (s.hostnameRegex ≠ "" → goCompile s.hostnameRegex = none →
      selMatch s ctx = none) := by
  constructor
  · unfold selMatch
    by_cases hre : s.hostnameRegex = ""
    · simp only [hre, ne_eq, not_true_eq_false, if_false, Option.some.injEq,
        Bool.and_eq_true, List.all_eq_true, beq_iff_eq]
      constructor
      · rintro ⟨hf, ht⟩
        exact ⟨.inl trivial, hf, fun kv hkv => (tagEntryOk_iff ctx kv.1 kv.2).mp (ht kv hkv)⟩
      · rintro ⟨-, hf, ht⟩
        exact ⟨hf, fun kv hkv => (tagEntryOk_iff ctx kv.1 kv.2).mpr (ht kv hkv)⟩
    · simp only [hre, ne_eq, not_false_eq_true, if_true]
      cases hm : goMatchString s.hostnameRegex (mapGet ctx.facts "hostname") with
      | none =>
        simp only [hm]
        constructor
        · intro h; exact absurd h (by simp)
        · rintro ⟨(h | h), -, -⟩
          · exact h.elim
          · exact absurd h (by simp)
      | some b =>
        cases b with
        | false =>
          simp only [hm]
          constructor
          · intro h; exact absurd h (by simp)
          · rintro ⟨(h | h), -, -⟩
            · exact h.elim
            · exact absurd h (by simp)
        | true =>
          simp only [hm, Option.some.injEq, Bool.and_eq_true, List.all_eq_true,
            beq_iff_eq]
          constructor
          · rintro ⟨hf, ht⟩
            exact ⟨.inr trivial, hf,
              fun kv hkv => (tagEntryOk_iff ctx kv.1 kv.2).mp (ht kv hkv)⟩
          · rintro ⟨-, hf, ht⟩
            exact ⟨hf, fun kv hkv => (tagEntryOk_iff ctx kv.1 kv.2).mpr (ht kv hkv)⟩
  · intro hne hcomp
    unfold selMatch
    simp [hne, goMatchString, hcomp]

theorem selMatch_characterization_witness :
    selMatch ⟨[], [], "("⟩ ⟨[], []⟩ = none :=
  (selMatch_characterization ⟨[], [], "("⟩ ⟨[], []⟩).2 (by decide) (by decide)

/-- C3 counterexample: the claim requires the non-empty pattern to be
applied as an ANCHORED regular expression against
`facts["hostname"]`.  For pattern `"a"` and hostname `"bab"` the
anchored reading is false, yet the source's `Sel.Match` (unanchored
`MatchString`) returns true. -/
theorem selMatch_anchoring_cex :
    selMatch ⟨[], [], "a"⟩ ⟨[("hostname", "bab")], []⟩ = some true ∧
    specAnchoredMatch "a" "bab" = some false := by decide

/-! ## Lemmas about the reconciler's loops -/

theorem filter_eq_nil_of_forall {f : Effect → Bool} {l : List Effect}
    (h : ∀ e ∈ l, f e = false) : l.filter f = [] := by
  induction l with
  | nil => rfl
  | cons a rest ih =>
    rw [List.filter_cons, h a (List.mem_cons_self a rest)]
    exact ih (fun e he => h e (List.mem_cons_of_mem a he))

theorem delStep_effects_eq (w : World) (desired : List String)
    (st : DelState) (a : String) :
    (delStep w false desired st a).effects =
      if a ∉ desired ∧ allowedPath a = true ∧ w.fileExists a = true
      then st.effects ++ [Effect.removeFile a] else st.effects := by
  unfold delStep
  by_cases h1 : a ∈ desired
  · simp [h1]
  · by_cases h2 : allowedPath a
    · by_cases h3 : w.fileExists a
      · simp [h1, h2, h3]
      · simp [h1, h2, h3]
    · simp [h1, h2]

theorem delFold_removeFile_mem (w : World) (desired prev : List String)
    (st : DelState) (p : String) :
    Effect.removeFile p ∈ (prev.foldl (delStep w false desired) st).effects ↔
      Effect.removeFile p ∈ st.effects ∨
      (p ∈ prev ∧ p ∉ desired ∧ allowedPath p = true ∧
        w.fileExists p = true) := by
  induction prev generalizing st with
  | nil => simp
  | cons a rest ih =>
    rw [List.foldl_cons, ih, delStep_effects_eq]
    by_cases hc : a ∉ desired ∧ allowedPath a = true ∧ w.fileExists a = true
    · rw [if_pos hc]
      simp only [List.mem_append, List.mem_cons, List.not_mem_nil,
        or_false, Effect.removeFile.injEq]
      constructor
      · rintro ((h | rfl) | h)
        · exact .inl h
        · exact .inr ⟨.inl rfl, hc⟩
        · exact .inr ⟨.inr h.1, h.2⟩
      · rintro (h | ⟨(rfl | hm), hC⟩)
        · exact .inl (.inl h)
        · exact .inl (.inr rfl)
        · exact .inr ⟨hm, hC⟩
    · rw [if_neg hc]
      simp only [List.mem_cons]
      constructor
      · rintro (h | h)
        · exact .inl h
        · exact .inr ⟨.inr h.1, h.2⟩
      · rintro (h | ⟨(rfl | hm), hC⟩)
        · exact .inl h
        · exact absurd hC hc
        · exact .inr ⟨hm, hC⟩

theorem delFold_dry_effects (w : World) (desired prev : List String)
    (st : DelState) :
    (prev.foldl (delStep w true desired) st).effects = st.effects := by
  induction prev generalizing st with
  | nil => rfl
  | cons a rest ih =>
    rw [List.foldl_cons, ih]
    show (delStep w true desired st a).effects = st.effects
    unfold delStep
    split
    · rfl
    · split
      · rfl
      · split
        · rfl
        · rfl

theorem delFold_effects_shape (w : World) (dry : Bool)
    (desired prev : List String) (st : DelState) :
    ∀ e ∈ (prev.foldl (delStep w dry desired) st).effects,
      e ∈ st.effects ∨ isRemoveEff e = true := by
  induction prev generalizing st with
  | nil => exact fun e he => .inl he
  | cons a rest ih =>
    intro e he
    rw [List.foldl_cons] at he
    rcases ih _ e he with h | h
    · unfold delStep at h
      split at h
      · exact .inl h
      · split at h
        · exact .inl h
        · split at h
          · split at h
            · exact .inl h
            · simp only [List.mem_append, List.mem_singleton] at h
              rcases h with h | rfl
              · exact .inl h
              · exact .inr rfl
          · exact .inl h
    · exact .inr h

theorem applyAtomicModel_effects_fileOp (w : World) (dry : Bool)
    (it : ApplyItem) :
    ∀ e ∈ (applyAtomicModel w dry it).2, fileOpEff e = true := by
  intro e he
  unfold applyAtomicModel at he
  split at he
  · simp at he
  · dsimp only at he
    split at he
    · simp at he
    · split at he
      · simp at he
      · simp only [List.mem_cons, List.not_mem_nil, or_false] at he
        rcases he with rfl | rfl | rfl | rfl
        · rfl
        · rfl
        · rfl
        · rfl

theorem appFold_effects_shape (w : World) (dry : Bool)
    (items : List ApplyItem) (st : AppState) :
    ∀ e ∈ (items.foldl (appStep w dry) st).effects,
      e ∈ st.effects ∨ fileOpEff e = true := by
  induction items generalizing st with
  | nil => exact fun e he => .inl he
  | cons a rest ih =>
    intro e he
    rw [List.foldl_cons] at he
    rcases ih _ e he with h | h
    · unfold appStep at h
      dsimp only at h
      split at h
      all_goals
        simp only [List.mem_append] at h
        rcases h with h | h
        · exact .inl h
        · exact .inr (applyAtomicModel_effects_fileOp w dry a e h)
    · exact .inr h

theorem appFold_dry_effects (w : World) (items : List ApplyItem)
    (st : AppState) :
    (items.foldl (appStep w true) st).effects = st.effects := by
  induction items generalizing st with
  | nil => rfl
  | cons a rest ih =>
    rw [List.foldl_cons, ih]
    show (appStep w true st a).effects = st.effects
    have h2 : (applyAtomicModel w true a).2 = [] := by
      unfold applyAtomicModel
      split
      · rfl
      · dsimp only
        split
        · rfl
        · rfl
    unfold appStep
    dsimp only
    rw [h2]
    split
    · simp
    · simp

theorem instantEffects_shape (w : World) (mods : List String) :
    ∀ e ∈ instantEffects w mods,
      ∃ args, e = Effect.execCmd "modprobe" args := by
  intro e he
  unfold instantEffects at he
  rcases List.mem_filterMap.mp he with ⟨m, hm, heq⟩
  by_cases hl : w.loadedModule m
  · rw [if_pos hl] at heq
    exact ⟨["-r", m], (Option.some.inj heq).symm⟩
  · rw [if_neg hl] at heq
    exact absurd heq (by simp)

theorem runOnce_eq_main (w : World) (dry : Bool) (c : String)
    (hs : gitEnsure w.repo w.git = .ok c)
    (hnp : (walkAll w w.policies WalkState.init).panicked = false) :
    runOnce w dry = runOnceMain w dry (walkAll w w.policies WalkState.init) := by
  unfold runOnce runOnceOk
  rw [hs]
  simp [hnp]

/-- C8: in a dry run the filesystem targets are untouched and no
post-step runs: the effect trace contains no file removal, no
mkdir/temp-write/chmod/rename sequence, no `dconf`,
`update-initramfs` or `modprobe -r` command, no dconf-profile
creation, and no managed-set save.  (The status file and audit log
are still written, exactly as in a real run.) -/
theorem runOnce_dry_frame (w : World) :
    (runOnce w true).trace.filter mutatingEffect = [] := by
  unfold runOnce
  cases hg : gitEnsure w.repo w.git with
  | error e => rfl
  | ok c =>
    unfold runOnceOk
    by_cases hp : (walkAll w w.policies WalkState.init).panicked
    · simp only [hp, if_true]
      refine filter_eq_nil_of_forall ?_
      intro e he
      simp only [List.mem_append, List.mem_cons, List.not_mem_nil,
        List.mem_map, or_false] at he
      rcases he with (rfl | rfl) | ⟨kn, hkn, hkne⟩
      · rfl
      · rfl
      · subst hkne; rfl
    · simp only [hp, if_false]
      unfold runOnceMain
      refine filter_eq_nil_of_forall ?_
      intro e he
      simp only [delLoop, delFold_dry_effects, appFold_dry_effects] at he
      simp at he
      rcases he with rfl | rfl | ⟨kn, hkn, hmem, hkne⟩ | rfl | rfl
      · rfl
      · rfl
      · subst hkne; rfl
      · rfl
      · rfl

theorem removeEff_kinds {e : Effect} (h : isRemoveEff e = true) :
    ∃ p, e = Effect.removeFile p := by
  cases e <;> simp_all [isRemoveEff]

theorem runOnceMain_trace_decomp (w : World) (dry : Bool) (st : WalkState) :
    ∃ mid, (runOnceMain w dry st).trace =
      ([Effect.gitSync, Effect.invSync] ++ mid) ++
        [Effect.statusWrite, Effect.auditAppend] ∧
      (∀ e ∈ mid, isAuditEff e = false ∧ isStatusEff e = false) ∧
      (∀ p, Effect.removeFile p ∈ mid ↔
        Effect.removeFile p ∈ (delLoop w dry st.desired w.prevManaged).effects) := by
  unfold runOnceMain
  dsimp only
  refine ⟨_, rfl, ?_, ?_⟩
  · intro e he
    simp only [List.mem_append] at he
    rcases he with ((((((hr | hd) | ha) | h5) | h6) | h7) | h8)
    · obtain ⟨kn, -, rfl⟩ := List.mem_map.mp hr
      exact ⟨rfl, rfl⟩
    · rcases delFold_effects_shape w dry _ _ _ e hd with h | h
      · exact absurd h (List.not_mem_nil e)
      · obtain ⟨p, rfl⟩ := removeEff_kinds h
        exact ⟨rfl, rfl⟩
    · rcases appFold_effects_shape w dry _ _ e ha with h | h
      · exact absurd h (List.not_mem_nil e)
      · cases e <;> simp_all [fileOpEff, isAuditEff, isStatusEff]
    · revert h5
      split
      · intro h5
        simp only [List.mem_cons, List.not_mem_nil, or_false] at h5
        rcases h5 with rfl | rfl | rfl
        · exact ⟨rfl, rfl⟩
        · exact ⟨rfl, rfl⟩
        · exact ⟨rfl, rfl⟩
      · intro h5
        exact absurd h5 (List.not_mem_nil e)
    · revert h6
      split
      · intro h6
        simp only [List.mem_cons, List.not_mem_nil, or_false] at h6
        subst h6
        exact ⟨rfl, rfl⟩
      · intro h6
        exact absurd h6 (List.not_mem_nil e)
    · revert h7
      split
      · intro h7
        obtain ⟨args, rfl⟩ := instantEffects_shape w _ e h7
        exact ⟨rfl, rfl⟩
      · intro h7
        exact absurd h7 (List.not_mem_nil e)
    · revert h8
      split
      · intro h8
        simp only [List.mem_cons, List.not_mem_nil, or_false] at h8
        subst h8
        exact ⟨rfl, rfl⟩
      · intro h8
        exact absurd h8 (List.not_mem_nil e)
  · intro p
    constructor
    · intro hp
      simp only [List.mem_append] at hp
      rcases hp with ((((((hr | hd) | ha) | h5) | h6) | h7) | h8)
      · obtain ⟨kn, -, heq⟩ := List.mem_map.mp hr
        exact absurd heq (by simp)
      · exact hd
      · rcases appFold_effects_shape w dry _ _ _ ha with h | h
        · exact absurd h (List.not_mem_nil _)
        · simp [fileOpEff] at h
      · revert h5
        split
        · intro h5
          simp at h5
        · intro h5
          exact absurd h5 (List.not_mem_nil _)
      · revert h6
        split
        · intro h6
          simp at h6
        · intro h6
          exact absurd h6 (List.not_mem_nil _)
      · revert h7
        split
        · intro h7
          obtain ⟨args, heq⟩ := instantEffects_shape w _ _ h7
          exact absurd heq (by simp)
        · intro h7
          exact absurd h7 (List.not_mem_nil _)
      · revert h8
        split
        · intro h8
          simp at h8
        · intro h8
          exact absurd h8 (List.not_mem_nil _)
    · intro hp
      simp only [List.mem_append]
      exact .inl (.inl (.inl (.inl (.inl (.inr hp)))))

/-- C5 (amended): every `run_once` whose repository sync succeeds (and
whose policy walk does not panic on an invalid `hostnameRegex`)
appends exactly one audit record and performs exactly one status-file
write; a run whose repository sync fails returns the sync error before
either write, so neither happens. -/
theorem runOnce_audit_status (w : World) (dry : Bool) (c : String)
    (hs : gitEnsure w.repo w.git = .ok c)
    (hnp : (walkAll w w.policies WalkState.init).panicked = false) :
    ((runOnce w dry).trace.filter isAuditEff).length = 1 ∧
    ((runOnce w dry).trace.filter isStatusEff).length = 1 := by
  rw [runOnce_eq_main w dry c hs hnp]
  obtain ⟨mid, htr, hmid, -⟩ :=
    runOnceMain_trace_decomp w dry (walkAll w w.policies WalkState.init)
  rw [htr]
  constructor
  · rw [List.filter_append, List.filter_append]
    rw [filter_eq_nil_of_forall (fun e he => (hmid e he).1)]
    rfl
  · rw [List.filter_append, List.filter_append]
    rw [filter_eq_nil_of_forall (fun e he => (hmid e he).2)]
    rfl

theorem runOnce_audit_status_witness :
    ((runOnce exWorldOk false).trace.filter isAuditEff).length = 1 ∧
    ((runOnce exWorldOk false).trace.filter isStatusEff).length = 1 :=
  runOnce_audit_status exWorldOk false "c0ffee" (by decide) (by decide)

/-- C5 counterexample: the claim says EVERY invocation, including one
whose repository sync fails, appends one audit record and overwrites
the status file.  In a world whose sync fails, `RunOnce` returns the
error first: the trace contains zero audit appends and zero status
writes. -/
theorem runOnce_audit_syncfail_cex :
    ((runOnce exWorldSyncFail false).trace.filter isAuditEff).length = 0 ∧
    ((runOnce exWorldSyncFail false).trace.filter isStatusEff).length = 0 ∧
    (runOnce exWorldSyncFail false).outcome =
      .error "fatal: could not read from remote repository" := by decide

/-- C2 (amended): in a `run_once` with `dry_run` false whose
repository sync succeeds and whose policy walk does not panic, a path
`p` is deleted iff `p` is an item of the previously persisted managed
set, `p` is not in the run's desired target-path set, `p` begins with
one of the four allow-list prefixes, and `p` currently exists.  In
every run (any `dry_run`), no path absent from the managed set is
deleted, and managed-set entries violating the allow-list are skipped
without deletion. -/
theorem runOnce_delete_iff (w : World) (p : String) (c : String)
    (hs : gitEnsure w.repo w.git = .ok c)
    (hnp : (walkAll w w.policies WalkState.init).panicked = false) :
    (Effect.removeFile p ∈ (runOnce w false).trace ↔
      p ∈ w.prevManaged ∧ p ∉ desiredOf w ∧ allowedPath p = true ∧
        w.fileExists p = true) ∧
    (∀ dry, Effect.removeFile p ∈ (runOnce w dry).trace →
      p ∈ w.prevManaged ∧ allowedPath p = true) := by
  have hmain : ∀ dry, Effect.removeFile p ∈ (runOnce w dry).trace ↔
      Effect.removeFile p ∈
        (delLoop w dry (walkAll w w.policies WalkState.init).desired
          w.prevManaged).effects := by
    intro dry
    rw [runOnce_eq_main w dry c hs hnp]
    obtain ⟨mid, htr, -, hrem⟩ :=
      runOnceMain_trace_decomp w dry (walkAll w w.policies WalkState.init)
    rw [htr]
    simp only [List.mem_append, List.mem_cons, List.not_mem_nil, or_false]
    constructor
    · rintro ((h | h) | h)
      · rcases h with h | h <;> exact absurd h (by simp)
      · exact (hrem p).mp h
      · rcases h with h | h <;> exact absurd h (by simp)
    · intro h
      exact .inl (.inr ((hrem p).mpr h))
  constructor
  · rw [hmain false]
    unfold delLoop
    rw [delFold_removeFile_mem]
    simp only [List.not_mem_nil, false_or]
    exact Iff.rfl
  · intro dry hmem
    cases dry with
    | false =>
      rw [hmain false] at hmem
      unfold delLoop at hmem
      rw [delFold_removeFile_mem] at hmem
      simp only [List.not_mem_nil, false_or] at hmem
      exact ⟨hmem.1, hmem.2.2.1⟩
    | true =>
      rw [hmain true] at hmem
      unfold delLoop at hmem
      rw [delFold_dry_effects] at hmem
      exact absurd hmem (List.not_mem_nil _)

theorem runOnce_delete_iff_witness :
    Effect.removeFile "/etc/modprobe.d/60-lgpo-old.conf" ∈
      (runOnce exWorldOk false).trace :=
  ((runOnce_delete_iff exWorldOk "/etc/modprobe.d/60-lgpo-old.conf" "c0ffee"
      (by decide) (by decide)).1).mpr (by decide)

/-- C2 counterexample: the claim quantifies over every `run_once`
reconciliation; in a dry run all four deletion conditions can hold for
a path and yet nothing is deleted, so the "if" direction of the claim
fails as stated. -/
theorem runOnce_delete_dry_cex :
    "/etc/modprobe.d/60-lgpo-old.conf" ∈ exWorldOk.prevManaged ∧
    "/etc/modprobe.d/60-lgpo-old.conf" ∉ desiredOf exWorldOk ∧
    allowedPath "/etc/modprobe.d/60-lgpo-old.conf" = true ∧
    exWorldOk.fileExists "/etc/modprobe.d/60-lgpo-old.conf" = true ∧
    Effect.removeFile "/etc/modprobe.d/60-lgpo-old.conf" ∉
      (runOnce exWorldOk true).trace := by decide

/-- C4: when the syncer completes a sync over SSH with the device
credential (either an SSH remote, or the HTTPS→SSH fallback after an
HTTPS failure on a github.com remote) and the push-dry-run probe to a
random refname succeeds, `Ensure` returns the write-capable-credential
error instead of a commit id, and the reconciliation performs no
subsequent rendering. -/
theorem gitEnsure_write_capable (w : World) (c : String)
    (hssh : isSSHURL w.repo = true ∨
      ((goHasPfx w.repo "https://github.com/" ||
        goHasPfx w.repo "http://github.com/") = true ∧
       ∃ e, w.git.httpsResult = .error e))
    (hok : w.git.sshResult = .ok c)
    (hprobe : w.git.pushDryRunOk = true) :
    gitEnsure w.repo w.git = .error writeCapMsg ∧
    ∀ dry, ((runOnce w dry).trace.filter isRenderEff) = [] := by
  have hro : assertReadOnly w.git = .ok false := by
    unfold assertReadOnly
    rw [hprobe]
    rfl
  have hens : gitEnsure w.repo w.git = .error writeCapMsg := by
    unfold gitEnsure
    by_cases hs2 : isSSHURL w.repo
    · simp [hs2, hok, hro]
    · rcases hssh with h | ⟨hpre, e, he⟩
      · exact absurd h hs2
      · simp [hs2, he, hpre, hok, hro]
  refine ⟨hens, ?_⟩
  intro dry
  unfold runOnce
  rw [hens]
  rfl

theorem gitEnsure_write_capable_witness :
    gitEnsure exWorldSSH.repo exWorldSSH.git = .error writeCapMsg ∧
    ((runOnce exWorldSSH false).trace.filter isRenderEff) = [] := by
  have h := gitEnsure_write_capable exWorldSSH "c0ffee" (.inl (by decide))
      (by decide) (by decide)
  exact ⟨h.1, h.2 false⟩

end LGpo
